import Mathlib

/-
Shallow embedding of the scheduling/billing core of akashsingla008/tutorplanner
(src/app.js), together with proofs about the claims of its specification.

Modelling conventions:
* Wall-clock `HH:MM` strings become minutes after midnight (`Nat`).  For
  well-formed zero-padded `HH:MM` strings, JavaScript string comparison
  (`<`, `<=`, `localeCompare`) agrees with numeric comparison of the minute
  counts, so the source's string comparisons become `Nat` comparisons.
* ISO `YYYY-MM-DD` date strings become day numbers (`Nat`).  Lexicographic
  order on ISO dates agrees with chronological order, so string equality and
  range comparisons on dates become `Nat` equality and `≤`.
* A JS class record becomes the structure `Class`.  Fields that may be absent
  are `Option`s; boolean flags read through JS truthiness (absent = falsy)
  are `Bool` with default `false`.
* JS `Number` arithmetic on minute counts and rates is modelled by exact
  integer/rational arithmetic; `Math.round x = ⌊x + 1/2⌋`.
-/

namespace TutorPlanner

/-- One class record, as stored in the `classes` array of src/app.js (§3 of
the spec).  Fields mirror the object literals built by `handleFormSubmit`,
`handleCheckWithStudent`, `handleCancelClass` and friends. -/
structure Class where
  student : String := ""
  day : String := ""
  date : Option Nat := none
  start : Nat := 0
  «end» : Nat := 0
  cancelled : Bool := false
  cancelReason : Option String := none
  cancelledAt : Option String := none
  customCancelReason : Option String := none
  pendingConfirmation : Bool := false
  pendingSince : Option String := none
  allowedClash : Bool := false
  completedDate : Option Nat := none
deriving Repr, DecidableEq

/-- An availability suggestion `{start, end}` as produced by
`findAvailableSlots` (src/app.js line 1789). -/
structure Slot where
  start : Nat
  «end» : Nat
deriving Repr, DecidableEq

/-- Embeds `timesOverlap` (src/app.js line 1041):
`return a.start < b.end && b.start < a.end;`. -/
def timesOverlap (a b : Class) : Bool :=
  decide (a.start < b.«end») && decide (b.start < a.«end»)

/-- Embeds `getMinutesBetween` (src/app.js line 1911): the signed difference
in minutes (may be negative when `end` precedes `start`). -/
def getMinutesBetween (start «end» : Nat) : Int :=
  («end» : Int) - (start : Int)

/-- Embeds `addMinutesToTime` (src/app.js line 1903):
`newH = floor(total/60) % 24; newM = total % 60`, re-encoded in minutes. -/
def addMinutesToTime (time minutes : Nat) : Nat :=
  (time + minutes) / 60 % 24 * 60 + (time + minutes) % 60

/-- Body of the `classes.some((c, i) => ...)` callback inside `hasClash`
(src/app.js lines 1698-1704): skip the excluded index, skip cancelled
records, otherwise compare by date when the candidate has one and by day
name when it does not, and test time overlap. -/
def clashCheck (newClass : Class) (excludeIndex : Option Nat) (i : Nat) (c : Class) : Bool :=
  if excludeIndex = some i then false
  else if c.cancelled then false
  else
    (match newClass.date with
     | some _ => decide (c.date = newClass.date)
     | none => decide (c.day = newClass.day)) && timesOverlap newClass c

/-- Index-carrying recursion implementing `classes.some((c, i) => ...)` for
`hasClash`; `i` is the array index of the head of the remaining list. -/
def hasClashFrom (newClass : Class) (excludeIndex : Option Nat) : Nat → List Class → Bool
  | _, [] => false
  | i, c :: rest =>
    clashCheck newClass excludeIndex i c || hasClashFrom newClass excludeIndex (i + 1) rest

/-- Embeds `hasClash` (src/app.js lines 1697-1705). -/
def hasClash (newClass : Class) (excludeIndex : Option Nat) (classes : List Class) : Bool :=
  hasClashFrom newClass excludeIndex 0 classes

/-- Embeds `WORKING_HOURS.start` (src/app.js line 44), in hours. -/
def WORKING_HOURS_start : Nat := 8

/-- Embeds `WORKING_HOURS.end` (src/app.js line 44), in hours. -/
def WORKING_HOURS_end : Nat := 20

/-- Comparison used to sort a day's classes in `findAvailableSlots`
(src/app.js line 1773): `a.start.localeCompare(b.start)` on `HH:MM` strings,
i.e. ascending start time. -/
def startLE (a b : Class) : Prop := a.start ≤ b.start

instance : DecidableRel startLE := fun a b => Nat.decLe a.start b.start

instance : IsTotal Class startLE := ⟨fun a b => Nat.le_total a.start b.start⟩

instance : IsTrans Class startLE := ⟨fun _ _ _ => Nat.le_trans⟩

/-- The day filter plus editing exclusion of `findAvailableSlots`
(src/app.js lines 1771-1782): keep classes whose `day` matches and whose
array index is not the excluded (being-edited) index. -/
def keepForDay (day : String) (excl : Option Nat) : Nat → List Class → List Class
  | _, [] => []
  | i, c :: rest =>
    if c.day = day ∧ excl ≠ some i then c :: keepForDay day excl (i + 1) rest
    else keepForDay day excl (i + 1) rest

/-- The left-to-right sweep of `findAvailableSlots` (src/app.js lines
1784-1810) over the sorted day classes: before each class, emit a slot of
exactly the selected duration when the gap from the cursor is big enough,
then advance the cursor past the class; the nil case is the final check
against the end of the working day. -/
def slotSweep (selectedDuration : Nat) : List Class → Nat → List Slot
  | [], currentStart =>
    if currentStart < WORKING_HOURS_end * 60 ∧
        (selectedDuration : Int) ≤ getMinutesBetween currentStart (WORKING_HOURS_end * 60) then
      [⟨currentStart, addMinutesToTime currentStart selectedDuration⟩]
    else []
  | cls :: rest, currentStart =>
    (if currentStart < cls.start ∧
        (selectedDuration : Int) ≤ getMinutesBetween currentStart cls.start then
      [⟨currentStart, addMinutesToTime currentStart selectedDuration⟩]
    else []) ++
    slotSweep selectedDuration rest (if currentStart < cls.«end» then cls.«end» else currentStart)

/-- Embeds `findAvailableSlots` (src/app.js lines 1770-1813).  The source
filters by day name, sorts by start time, and drops the class at the
editing index; since JS `Array.prototype.sort` is stable, dropping the
excluded record before the stable sort yields the same list.  The final
`slice(0, 4)` becomes `take 4`. -/
def findAvailableSlots (day : String) (selectedDuration : Nat) (excl : Option Nat)
    (classes : List Class) : List Slot :=
  (slotSweep selectedDuration
    (List.insertionSort startLE (keepForDay day excl 0 classes))
    (WORKING_HOURS_start * 60)).take 4

/-- Embeds the `dayIndexMap` object of `renderReport` (src/app.js line 2046);
an unknown day name behaves like JS `undefined` (all comparisons false). -/
def dayIndexMap : String → Option Nat
  | "Sunday" => some 0
  | "Monday" => some 1
  | "Tuesday" => some 2
  | "Wednesday" => some 3
  | "Thursday" => some 4
  | "Friday" => some 5
  | "Saturday" => some 6
  | _ => none

/-- Embeds `isClassCompleted` (src/app.js lines 2048-2068).  `todayDayIndex`
is `new Date().getDay()` (Sunday = 0) and `nowMinutes` the current wall-clock
time; the source compares the class's weekday index against today's weekday
index and, on the same weekday, tests `now > classEndTime` strictly.  Note
the stored `date` field is never consulted. -/
def isClassCompleted (todayDayIndex : Nat) (nowMinutes : Nat) (cls : Class) : Bool :=
  if cls.completedDate.isSome then true
  else
    match dayIndexMap cls.day with
    | none => false
    | some classDayIndex =>
      if classDayIndex < todayDayIndex then true
      else if classDayIndex = todayDayIndex then decide (cls.«end» < nowMinutes)
      else false

/-- Embeds `getClassesInRange` (src/app.js lines 2015-2023): keep classes
that have a `date` lying inside the inclusive range. -/
def getClassesInRange (startStr endStr : Nat) (classes : List Class) : List Class :=
  classes.filter fun cls =>
    match cls.date with
    | none => false
    | some d => decide (startStr ≤ d) && decide (d ≤ endStr)

/-- The composite payment key built by `getClassPaymentId` (src/app.js lines
2026-2029): the source concatenates `student_date_start_end` into one string;
we keep the four components. -/
structure PaymentId where
  student : String
  date : Option Nat
  start : Nat
  «end» : Nat
deriving Repr, DecidableEq

/-- Embeds `getClassPaymentId` (src/app.js lines 2026-2029). -/
def getClassPaymentId (cls : Class) : PaymentId :=
  ⟨cls.student, cls.date, cls.start, cls.«end»⟩

/-- The per-student accumulator record of `renderReport`
(src/app.js lines 2102-2114). -/
structure StudentStats where
  total : Nat := 0
  cancelled : Nat := 0
  pending : Nat := 0
  completed : Nat := 0
  upcoming : Nat := 0
  completedMinutes : Int := 0
  upcomingMinutes : Int := 0
  paidClasses : Nat := 0
  paidMinutes : Int := 0
  completedClassIds : List PaymentId := []
deriving Repr, DecidableEq

/-- The zero-initialised accumulator (src/app.js lines 2103-2114). -/
def emptyStats : StudentStats := {}

/-- One iteration of the per-student accumulation loop of `renderReport`
(src/app.js lines 2116-2139); `paymentStatus` is the payment ledger and
`completed` the `isClassCompleted` predicate closed over "now". -/
def updateStudentStats (paymentStatus : PaymentId → Bool) (completed : Class → Bool)
    (s : StudentStats) (c : Class) : StudentStats :=
  let s := {s with total := s.total + 1}
  if c.cancelled then
    {s with cancelled := s.cancelled + 1}
  else if c.pendingConfirmation then
    {s with pending := s.pending + 1}
  else
    let minutes := getMinutesBetween c.start c.«end»
    if completed c then
      let classId := getClassPaymentId c
      let s := {s with completed := s.completed + 1,
                       completedMinutes := s.completedMinutes + minutes,
                       completedClassIds := s.completedClassIds ++ [classId]}
      if paymentStatus classId then
        {s with paidClasses := s.paidClasses + 1, paidMinutes := s.paidMinutes + minutes}
      else s
    else
      {s with upcoming := s.upcoming + 1, upcomingMinutes := s.upcomingMinutes + minutes}

/-- The `studentStats[student]` record after the accumulation loop of
`renderReport` (src/app.js lines 2100-2140): the source groups by the
`student` key of a JS object; per student this is the in-order fold of that
student's classes. -/
def statsFor (paymentStatus : PaymentId → Bool) (completed : Class → Bool)
    (classesInRange : List Class) (student : String) : StudentStats :=
  (classesInRange.filter fun c => c.student = student).foldl
    (updateStudentStats paymentStatus completed) emptyStats

/-- The report-row retention test of `renderReport` (src/app.js lines
2080-2081 and 2117-2124): not cancelled, not pending-confirmation, and
classified completed. -/
def reportKeep (completed : Class → Bool) (c : Class) : Bool :=
  !c.cancelled && !c.pendingConfirmation && completed c

/-- The period-level `completedMinutes` accumulator of `renderReport`
(src/app.js lines 2076-2088). -/
def periodCompletedMinutes (completed : Class → Bool) (classesInRange : List Class) : Int :=
  classesInRange.foldl
    (fun m c => if reportKeep completed c then m + getMinutesBetween c.start c.«end» else m) 0

/-- Embeds `Object.keys(studentStats).sort()` (src/app.js line 2144): the
distinct students of the period, sorted. -/
def reportStudents (classesInRange : List Class) : List String :=
  List.insertionSort (fun a b : String => a ≤ b) (classesInRange.map Class.student).dedup

/-- Embeds `studentRates[student] || defaultRate` (src/app.js line 2159):
an absent entry, or a falsy (zero) rate, falls back to the default. -/
def rateOf (studentRates : List (String × Nat)) (defaultRate : Nat) (student : String) : Nat :=
  match studentRates.lookup student with
  | some r => if r = 0 then defaultRate else r
  | none => defaultRate

/-- Embeds `Math.round((minutes / 60) * rate)` (src/app.js lines 2161-2162)
over exact arithmetic: `Math.round x = ⌊x + 1/2⌋`, and
`⌊minutes·rate/60 + 1/2⌋ = fdiv (2·minutes·rate + 60) 120`. -/
def mathRound60 (minutes : Int) (rate : Nat) : Int :=
  Int.fdiv (2 * minutes * (rate : Int) + 60) 120

/-- The `amount` of a student's report row (src/app.js line 2161). -/
def rowAmount (studentRates : List (String × Nat)) (defaultRate : Nat)
    (paymentStatus : PaymentId → Bool) (completed : Class → Bool)
    (classesInRange : List Class) (student : String) : Int :=
  mathRound60 (statsFor paymentStatus completed classesInRange student).completedMinutes
    (rateOf studentRates defaultRate student)

/-- The `paidAmountForStudent` of a report row (src/app.js line 2162). -/
def rowPaidAmount (studentRates : List (String × Nat)) (defaultRate : Nat)
    (paymentStatus : PaymentId → Bool) (completed : Class → Bool)
    (classesInRange : List Class) (student : String) : Int :=
  mathRound60 (statsFor paymentStatus completed classesInRange student).paidMinutes
    (rateOf studentRates defaultRate student)

/-- The `unpaidAmount` of a report row (src/app.js line 2163):
`amount - paidAmountForStudent`. -/
def rowUnpaidAmount (studentRates : List (String × Nat)) (defaultRate : Nat)
    (paymentStatus : PaymentId → Bool) (completed : Class → Bool)
    (classesInRange : List Class) (student : String) : Int :=
  rowAmount studentRates defaultRate paymentStatus completed classesInRange student -
    rowPaidAmount studentRates defaultRate paymentStatus completed classesInRange student

/-- The sum, over the students listed by the report, of their per-student
completed minutes (src/app.js lines 2144-2165 iterate exactly these
students). -/
def sumPerStudentCompletedMinutes (paymentStatus : PaymentId → Bool)
    (completed : Class → Bool) (classesInRange : List Class) : Int :=
  ((reportStudents classesInRange).map
    (fun s => (statsFor paymentStatus completed classesInRange s).completedMinutes)).sum

/-- The `testClass` built by `handleRestoreClass` (src/app.js lines
1557-1560): the record with its cancellation fields cleared. -/
def restoreTestClass (cls : Class) : Class :=
  {cls with cancelled := false, cancelReason := none, cancelledAt := none,
            customCancelReason := none}

/-- The `classes.some((c, i) => ...)` restore-time clash scan of
`handleRestoreClass` (src/app.js lines 1563-1567): skip the restored index
and cancelled records, then compare by day name and time overlap. -/
def restoreWouldClashFrom (testClass : Class) (editingIndex : Nat) :
    Nat → List Class → Bool
  | _, [] => false
  | i, c :: rest =>
    (if i = editingIndex then false
     else if c.cancelled then false
     else decide (c.day = testClass.day) && timesOverlap testClass c) ||
    restoreWouldClashFrom testClass editingIndex (i + 1) rest

/-- Embeds `handleRestoreClass` (src/app.js lines 1551-1584).  Returns
(success?, resulting collection); a rejected restore leaves the collection
untouched.  A null or out-of-range editing index is the source's early
return / defensive no-op. -/
def handleRestoreClass (classes : List Class) (editingIndex : Nat) : Bool × List Class :=
  match classes[editingIndex]? with
  | none => (false, classes)
  | some cls =>
    let testClass := restoreTestClass cls
    if restoreWouldClashFrom testClass editingIndex 0 classes then
      (false, classes)
    else
      (true, classes.set editingIndex testClass)

/-- Embeds `handleFormSubmit` (src/app.js lines 1319-1377).  `date` is the
class date the source derives for the selected day of the displayed week
(Date arithmetic external to the core); the validation and clash gate are
modelled exactly: empty student name, then `end <= start`, then the clash
gate unless the override flag is set.  Returns (accepted?, collection). -/
def handleFormSubmit (studentName : String) (day : String) (date : Nat)
    (start «end» : Nat) (editingIndex : Option Nat) (allowClashOverride : Bool)
    (classes : List Class) : Bool × List Class :=
  if studentName = "" then (false, classes)
  else
    let cls : Class := {student := studentName, day := day, date := some date,
                        start := start, «end» := «end»}
    if cls.«end» ≤ cls.start then (false, classes)
    else if hasClash cls editingIndex classes && !allowClashOverride then (false, classes)
    else
      let cls := if allowClashOverride then {cls with allowedClash := true} else cls
      match editingIndex with
      | some i => (true, classes.set i cls)
      | none => (true, classes ++ [cls])

/-- The pending class literal built by `handleCheckWithStudent`
(src/app.js lines 1413-1420): note there is no `date` field. -/
def pendingClass (studentName : String) (day : String) (start «end» : Nat)
    (pendingSince : String) : Class :=
  {student := studentName, day := day, start := start, «end» := «end»,
   pendingConfirmation := true, pendingSince := some pendingSince}

/-- The `{...classes[editingIndex], ...cls}` spread-merge of
`handleCheckWithStudent` (src/app.js line 1435): fields present on the new
literal overwrite, all others (in particular `date` and the cancellation
fields) are kept from the old record. -/
def pendingSpreadMerge (old cls : Class) (allowClashOverride : Bool) : Class :=
  {old with student := cls.student, day := cls.day, start := cls.start,
            «end» := cls.«end», pendingConfirmation := true,
            pendingSince := cls.pendingSince,
            allowedClash := if allowClashOverride then true else old.allowedClash}

/-- Embeds `handleCheckWithStudent` (src/app.js lines 1390-1449): validation
(empty student name, empty day, `end <= start`), the clash gate, then either
a spread-merge update of the edited record or a push of the dateless pending
class.  Returns (accepted?, collection). -/
def handleCheckWithStudent (studentName : String) (day : String) (start «end» : Nat)
    (pendingSince : String) (editingIndex : Option Nat) (allowClashOverride : Bool)
    (classes : List Class) : Bool × List Class :=
  if studentName = "" then (false, classes)
  else if day = "" then (false, classes)
  else if «end» ≤ start then (false, classes)
  else
    let cls := pendingClass studentName day start «end» pendingSince
    if hasClash cls editingIndex classes && !allowClashOverride then (false, classes)
    else
      match editingIndex with
      | some i =>
        match classes[i]? with
        | some old => (true, classes.set i (pendingSpreadMerge old cls allowClashOverride))
        | none => (true, classes)
      | none =>
        let cls := if allowClashOverride then {cls with allowedClash := true} else cls
        (true, classes ++ [cls])

/-- Embeds the `DAYS` constant (src/app.js line 41). -/
def DAYS : List String :=
  ["Monday", "Tuesday", "Wednesday", "Thursday", "Friday", "Saturday", "Sunday"]

/-- One step of `migrateClassesToDateFormat` (src/app.js lines 151-162):
a class lacking a `date` gets `currentWeekStart + DAYS.indexOf(day)` when the
day name is known (`indexOf !== -1`); dates are day numbers, so adding the
day index is the source's `setDate(weekStart.getDate() + dayIndex)`. -/
def migrateClass (currentWeekStart : Nat) (cls : Class) : Class :=
  match cls.date with
  | some _ => cls
  | none =>
    match DAYS.indexOf? cls.day with
    | some dayIndex => {cls with date := some (currentWeekStart + dayIndex)}
    | none => cls

/-- Embeds `migrateClassesToDateFormat` (src/app.js lines 147-168) on the
collection. -/
def migrateClassesToDateFormat (currentWeekStart : Nat) (classes : List Class) : List Class :=
  classes.map (migrateClass currentWeekStart)

/-- Propositional form of the `sameDay` test inside `hasClash` (src/app.js
line 1702): compare dates when the candidate carries one, day names
otherwise. -/
def sameDayCheck (newClass c : Class) : Prop :=
  match newClass.date with
  | some _ => c.date = newClass.date
  | none => c.day = newClass.day

/-- The class literal appended by the non-editing branch of
`handleCheckWithStudent` (src/app.js lines 1429-1437): the pending class,
with `allowedClash` set when the override flag was used. -/
def checkWithStudentNewClass (studentName : String) (day : String) (start «end» : Nat)
    (pendingSince : String) (allowClashOverride : Bool) : Class :=
  if allowClashOverride then
    {pendingClass studentName day start «end» pendingSince with allowedClash := true}
  else pendingClass studentName day start «end» pendingSince

/-- Candidate session for concrete checks: Asha, Monday 2024-06-03 (day
number 3 in our date model), 09:00-10:00 (540-600 minutes). -/
def candC1 : Class := {student := "Asha", day := "Monday", date := some 3, start := 540,
                       «end» := 600}

/-- A stored session starting exactly when `candC1` ends (back-to-back). -/
def bbC1 : Class := {student := "Riya", day := "Monday", date := some 3, start := 600,
                     «end» := 660}

/-- A cancelled stored session identical in date and time to `candC1`. -/
def twinC6 : Class := {student := "Dev", day := "Monday", date := some 3, start := 540,
                       «end» := 600, cancelled := true}

/-- A cancelled session spanning the whole working day. -/
def cxC4 : Class := {student := "Asha", day := "Monday", date := some 0, start := 480,
                     «end» := 1200, cancelled := true}

/-- A cancelled one-hour Monday session, for the availability witness. -/
def cW4 : Class := {student := "Mira", day := "Monday", date := some 3, start := 540,
                    «end» := 600, cancelled := true}

/-- A single booked Monday session, for the availability witness. -/
def ashaC5 : Class := {student := "Asha", day := "Monday", date := some 3, start := 540,
                       «end» := 600}

/-- A session whose stored date (day number 100) lies strictly before a
"today" of day number 105 falling on a Wednesday, but whose weekday is
Friday: concretely, date 2024-05-31 (a Friday) viewed from Wednesday
2024-06-05. -/
def clsC2 : Class := {student := "Maya", day := "Friday", date := some 100, start := 540,
                      «end» := 600}

/-- Completion predicate for the billing examples; the classes below carry
an explicit `completedDate`, so `isClassCompleted` returns true for them at
any "now". -/
def compC3 : Class → Bool := isClassCompleted 0 0

/-- Rate table giving Kabir 100 per hour. -/
def ratesC3 : List (String × Nat) := [("Kabir", 100)]

/-- First of two completed 50-minute sessions for Kabir. -/
def k1C3 : Class := {student := "Kabir", day := "Monday", date := some 10, start := 600,
                     «end» := 650, completedDate := some 1}

/-- Second of two completed 50-minute sessions for Kabir. -/
def k2C3 : Class := {student := "Kabir", day := "Tuesday", date := some 11, start := 600,
                     «end» := 650, completedDate := some 1}

/-- Ledger marking exactly the first Kabir session paid. -/
def psC3 : PaymentId → Bool := fun id => decide (id = getClassPaymentId k1C3)

/-- One completed 90-minute session for Kabir (600-690 minutes). -/
def kabir90 : Class := {student := "Kabir", day := "Monday", date := some 20, start := 600,
                        «end» := 690, completedDate := some 1}

/-- The empty ledger: nothing paid. -/
def psUnpaidC3 : PaymentId → Bool := fun _ => false

/-- The ledger after marking the 90-minute session's entry true. -/
def psPaidC3 : PaymentId → Bool := fun id => decide (id = getClassPaymentId kabir90)

/-- A cancelled Monday session dated day 3, cancelled for `holiday`. -/
def c8cancelled : Class := {student := "Asha", day := "Monday", date := some 3, start := 540,
                            «end» := 600, cancelled := true, cancelReason := some "holiday"}

/-- A non-cancelled Monday session on a different date (day 10) whose time
range overlaps `c8cancelled`. -/
def c8other : Class := {student := "Riya", day := "Monday", date := some 10, start := 570,
                        «end» := 630}
lemma clashCheck_iff (cand : Class) (excl : Option Nat) (i : Nat) (c : Class) :
    clashCheck cand excl i c = true ↔
      ¬excl = some i ∧ c.cancelled = false ∧ sameDayCheck cand c ∧
        cand.start < c.«end» ∧ c.start < cand.«end» := by
  unfold clashCheck sameDayCheck timesOverlap
  rcases h : cand.date with _ | d <;>
    by_cases he : excl = some i <;> by_cases hc : c.cancelled <;>
      simp [he, hc, h, and_assoc]

lemma hasClashFrom_iff (cand : Class) (excl : Option Nat) :
    ∀ (cs : List Class) (j : Nat),
      hasClashFrom cand excl j cs = true ↔
        ∃ i c, cs[i]? = some c ∧ clashCheck cand excl (j + i) c = true := by
  intro cs
  induction cs with
  | nil => intro j; simp [hasClashFrom]
  | cons c rest ih =>
    intro j
    simp only [hasClashFrom, Bool.or_eq_true]
    constructor
    · rintro (h | h)
      · exact ⟨0, c, by simp, by simpa using h⟩
      · obtain ⟨i, c', hget, hcc⟩ := (ih (j + 1)).1 h
        refine ⟨i + 1, c', by simpa using hget, ?_⟩
        have : j + (i + 1) = j + 1 + i := by omega
        rw [this]; exact hcc
    · rintro ⟨i, c', hget, hcc⟩
      cases i with
      | zero =>
        left
        simp only [List.getElem?_cons_zero, Option.some.injEq] at hget
        subst hget
        simpa using hcc
      | succ i =>
        right
        refine (ih (j + 1)).2 ⟨i, c', by simpa using hget, ?_⟩
        have : j + 1 + i = j + (i + 1) := by omega
        rw [this]; exact hcc

lemma hasClash_iff (cand : Class) (excl : Option Nat) (cs : List Class) :
    hasClash cand excl cs = true ↔
      ∃ i c, cs[i]? = some c ∧ ¬excl = some i ∧ c.cancelled = false ∧
        sameDayCheck cand c ∧ cand.start < c.«end» ∧ c.start < cand.«end» := by
  unfold hasClash
  rw [hasClashFrom_iff]
  constructor
  · rintro ⟨i, c, hget, hcc⟩
    have h := (clashCheck_iff cand excl (0 + i) c).1 hcc
    rw [Nat.zero_add] at h
    exact ⟨i, c, hget, h⟩
  · rintro ⟨i, c, hget, h1, h2, h3, h4⟩
    exact ⟨i, c, hget, (clashCheck_iff cand excl (0 + i) c).2 ⟨by simpa using h1, h2, h3, h4⟩⟩

lemma hasClashFrom_append (cand : Class) (excl : Option Nat) :
    ∀ (l₁ l₂ : List Class) (j : Nat),
      hasClashFrom cand excl j (l₁ ++ l₂) =
        (hasClashFrom cand excl j l₁ || hasClashFrom cand excl (j + l₁.length) l₂) := by
  intro l₁
  induction l₁ with
  | nil => intro l₂ j; simp [hasClashFrom]
  | cons c rest ih =>
    intro l₂ j
    have hcons : (c :: rest) ++ l₂ = c :: (rest ++ l₂) := rfl
    rw [hcons]
    show (clashCheck cand excl j c || hasClashFrom cand excl (j + 1) (rest ++ l₂)) = _
    rw [ih l₂ (j + 1)]
    simp only [hasClashFrom, List.length_cons, Bool.or_assoc]
    have h2 : j + (rest.length + 1) = j + 1 + rest.length := by omega
    rw [h2]

lemma clashCheck_none_eq (cand : Class) (i j : Nat) (c : Class) :
    clashCheck cand none i c = clashCheck cand none j c := by
  simp [clashCheck]

lemma hasClashFrom_none_shift (cand : Class) :
    ∀ (cs : List Class) (j k : Nat),
      hasClashFrom cand none j cs = hasClashFrom cand none k cs := by
  intro cs
  induction cs with
  | nil => intro j k; rfl
  | cons c rest ih =>
    intro j k
    simp only [hasClashFrom]
    rw [clashCheck_none_eq cand j k, ih (j + 1) (k + 1)]

lemma clashCheck_some_ne (cand : Class) (i j : Nat) (h : i ≠ j) (c : Class) :
    clashCheck cand (some i) j c = clashCheck cand none j c := by
  simp [clashCheck, h]

lemma hasClashFrom_some_of_lt (cand : Class) (i : Nat) :
    ∀ (cs : List Class) (j : Nat), i < j →
      hasClashFrom cand (some i) j cs = hasClashFrom cand none j cs := by
  intro cs
  induction cs with
  | nil => intro j _; rfl
  | cons c rest ih =>
    intro j hij
    simp only [hasClashFrom]
    rw [clashCheck_some_ne cand i j (by omega) c, ih (j + 1) (by omega)]

lemma hasClashFrom_erase (cand : Class) :
    ∀ (cs : List Class) (i j : Nat),
      hasClashFrom cand (some (j + i)) j cs = hasClashFrom cand none j (cs.eraseIdx i) := by
  intro cs
  induction cs with
  | nil => intro i j; simp [hasClashFrom, List.eraseIdx]
  | cons c rest ih =>
    intro i j
    cases i with
    | zero =>
      have h0 : clashCheck cand (some (j + 0)) j c = false := by simp [clashCheck]
      simp only [hasClashFrom, List.eraseIdx_cons_zero, h0, Bool.false_or]
      rw [hasClashFrom_some_of_lt cand (j + 0) rest (j + 1) (by omega),
        hasClashFrom_none_shift cand rest (j + 1) j]
    | succ i =>
      simp only [hasClashFrom, List.eraseIdx_cons_succ]
      rw [clashCheck_some_ne cand (j + (i + 1)) j (by omega) c]
      have : j + (i + 1) = (j + 1) + i := by omega
      rw [this, ih i (j + 1)]

lemma addMinutesToTime_eq_mod (t d : Nat) : addMinutesToTime t d = (t + d) % 1440 := by
  unfold addMinutesToTime
  omega

lemma addMinutesToTime_of_lt (t d : Nat) (h : t + d < 1440) : addMinutesToTime t d = t + d := by
  rw [addMinutesToTime_eq_mod, Nat.mod_eq_of_lt h]

lemma slotSweep_start_ge (dur : Nat) :
    ∀ (l : List Class) (cur : Nat), ∀ s ∈ slotSweep dur l cur, cur ≤ s.start := by
  intro l
  induction l with
  | nil =>
    intro cur s hs
    simp only [slotSweep] at hs
    split at hs
    · simp at hs; subst hs; exact le_refl _
    · simp at hs
  | cons cls rest ih =>
    intro cur s hs
    simp only [slotSweep, List.mem_append] at hs
    rcases hs with hs | hs
    · split at hs
      · simp at hs; subst hs; exact le_refl _
      · simp at hs
    · have := ih (if cur < cls.«end» then cls.«end» else cur) s hs
      split at this <;> omega

lemma slotSweep_spec (dur : Nat) :
    ∀ (l : List Class) (cur : Nat),
      l.Pairwise startLE →
      (∀ c ∈ l, c.start < 1440) →
      ∀ s ∈ slotSweep dur l cur,
        s.«end» = s.start + dur ∧
        ∀ c ∈ l, ¬(s.start < c.«end» ∧ c.start < s.«end») := by
  intro l
  induction l with
  | nil =>
    intro cur _ _ s hs
    simp only [slotSweep] at hs
    split at hs
    case isTrue h =>
      simp only [List.mem_singleton] at hs
      subst hs
      have hle : cur + dur ≤ WORKING_HOURS_end * 60 := by
        unfold getMinutesBetween at h
        omega
      refine ⟨?_, by simp⟩
      simp only
      exact addMinutesToTime_of_lt cur dur (by unfold WORKING_HOURS_end at hle; omega)
    case isFalse => simp at hs
  | cons cls rest ih =>
    intro cur hsort hlt s hs
    have hsort' : rest.Pairwise startLE := (List.pairwise_cons.1 hsort).2
    have hhead : ∀ c ∈ rest, cls.start ≤ c.start := (List.pairwise_cons.1 hsort).1
    have hlt' : ∀ c ∈ rest, c.start < 1440 := fun c hc => hlt c (List.mem_cons_of_mem _ hc)
    simp only [slotSweep, List.mem_append] at hs
    rcases hs with hs | hs
    · -- the slot emitted before `cls`
      split at hs
      case isTrue h =>
        simp only [List.mem_singleton] at hs
        subst hs
        have hfit : cur + dur ≤ cls.start := by
          unfold getMinutesBetween at h
          omega
        have hend : addMinutesToTime cur dur = cur + dur :=
          addMinutesToTime_of_lt cur dur
            (lt_of_le_of_lt hfit (hlt cls (List.mem_cons_self _ _)))
        refine ⟨hend, ?_⟩
        intro c hc
        rcases List.mem_cons.1 hc with rfl | hc
        · simp only [hend]
          omega
        · have := hhead c hc
          simp only [hend]
          omega
      case isFalse => simp at hs
    · -- a slot produced by the recursive sweep
      set cur' := if cur < cls.«end» then cls.«end» else cur with hcur'
      obtain ⟨hend, hrest⟩ := ih cur' hsort' hlt' s hs
      have hge : cur' ≤ s.start := slotSweep_start_ge dur rest cur' s hs
      have hclsend : cls.«end» ≤ cur' := by
        rw [hcur']; split <;> omega
      refine ⟨hend, ?_⟩
      intro c hc
      rcases List.mem_cons.1 hc with rfl | hc
      · omega
      · exact hrest c hc

lemma slotSweep_chrono (dur : Nat) :
    ∀ (l : List Class) (cur : Nat),
      (∀ c ∈ l, c.start < c.«end») →
      List.Pairwise (fun a b : Slot => a.start < b.start) (slotSweep dur l cur) := by
  intro l
  induction l with
  | nil =>
    intro cur _
    simp only [slotSweep]
    split
    · exact List.pairwise_singleton _ _
    · exact List.Pairwise.nil
  | cons cls rest ih =>
    intro cur hwf
    have hwf' : ∀ c ∈ rest, c.start < c.«end» :=
      fun c hc => hwf c (List.mem_cons_of_mem _ hc)
    simp only [slotSweep]
    set cur' := if cur < cls.«end» then cls.«end» else cur with hcur'
    have hrec := ih cur' hwf'
    split
    case isTrue h =>
      rw [List.singleton_append, List.pairwise_cons]
      refine ⟨?_, hrec⟩
      intro s hs
      have hge : cur' ≤ s.start := slotSweep_start_ge dur rest cur' s hs
      have h1 : cur < cls.start := h.1
      have h2 : cls.start < cls.«end» := hwf cls (List.mem_cons_self _ _)
      have : cls.«end» ≤ cur' := by rw [hcur']; split <;> omega
      simp only
      omega
    case isFalse => simpa using hrec

lemma keepForDay_subset (day : String) (excl : Option Nat) :
    ∀ (cs : List Class) (j : Nat), ∀ c ∈ keepForDay day excl j cs,
      c ∈ cs ∧ c.day = day := by
  intro cs
  induction cs with
  | nil => intro j c hc; simp [keepForDay] at hc
  | cons x rest ih =>
    intro j c hc
    simp only [keepForDay] at hc
    split at hc
    case isTrue h =>
      rcases List.mem_cons.1 hc with rfl | hc
      · exact ⟨List.mem_cons_self _ _, h.1⟩
      · obtain ⟨h1, h2⟩ := ih (j + 1) c hc
        exact ⟨List.mem_cons_of_mem _ h1, h2⟩
    case isFalse =>
      obtain ⟨h1, h2⟩ := ih (j + 1) c hc
      exact ⟨List.mem_cons_of_mem _ h1, h2⟩

lemma keepForDay_mem_of_getElem (day : String) (excl : Option Nat) :
    ∀ (cs : List Class) (j i : Nat) (c : Class),
      cs[i]? = some c → c.day = day → excl ≠ some (j + i) →
      c ∈ keepForDay day excl j cs := by
  intro cs
  induction cs with
  | nil => intro j i c hget; simp at hget
  | cons x rest ih =>
    intro j i c hget hday hexcl
    cases i with
    | zero =>
      simp only [List.getElem?_cons_zero, Option.some.injEq] at hget
      subst hget
      simp only [keepForDay]
      rw [if_pos ⟨hday, by simpa using hexcl⟩]
      exact List.mem_cons_self _ _
    | succ i =>
      simp only [List.getElem?_cons_succ] at hget
      have hin := ih (j + 1) i c hget hday
        (by rw [show j + 1 + i = j + (i + 1) from by omega]; exact hexcl)
      simp only [keepForDay]
      split
      · exact List.mem_cons_of_mem _ hin
      · exact hin

lemma findAvailableSlots_core (day : String) (d : Nat) (excl : Option Nat) (cs : List Class)
    (hwf : ∀ c ∈ cs, c.start < c.«end» ∧ c.«end» ≤ 1440) :
    (∀ s ∈ findAvailableSlots day d excl cs,
        s.«end» = s.start + d ∧
        ∀ i c, cs[i]? = some c → excl ≠ some i → c.day = day →
          ¬(s.start < c.«end» ∧ c.start < s.«end»)) ∧
    (findAvailableSlots day d excl cs).length ≤ 4 ∧
    List.Pairwise (fun a b : Slot => a.start < b.start) (findAvailableSlots day d excl cs) := by
  set L := List.insertionSort startLE (keepForDay day excl 0 cs) with hL
  have hperm : L.Perm (keepForDay day excl 0 cs) :=
    List.perm_insertionSort startLE (keepForDay day excl 0 cs)
  have hmemL : ∀ c ∈ L, c ∈ cs ∧ c.day = day := by
    intro c hc
    exact keepForDay_subset day excl cs 0 c (hperm.mem_iff.1 hc)
  have hsort : L.Pairwise startLE := List.sorted_insertionSort startLE _
  have hlt : ∀ c ∈ L, c.start < 1440 := by
    intro c hc
    obtain ⟨hcs, _⟩ := hmemL c hc
    obtain ⟨h1, h2⟩ := hwf c hcs
    omega
  have hwfL : ∀ c ∈ L, c.start < c.«end» := by
    intro c hc
    exact (hwf c (hmemL c hc).1).1
  have hmem_sweep : ∀ s ∈ findAvailableSlots day d excl cs,
      s ∈ slotSweep d L (WORKING_HOURS_start * 60) := by
    intro s hs
    exact (List.take_sublist 4 _).subset hs
  refine ⟨?_, ?_, ?_⟩
  · intro s hs
    obtain ⟨hend, hover⟩ :=
      slotSweep_spec d L (WORKING_HOURS_start * 60) hsort hlt s (hmem_sweep s hs)
    refine ⟨hend, ?_⟩
    intro i c hget hexcl hday
    have hc : c ∈ L := hperm.mem_iff.2
      (keepForDay_mem_of_getElem day excl cs 0 i c hget hday (by simpa using hexcl))
    exact hover c hc
  · rw [findAvailableSlots, List.length_take]
    exact min_le_left _ _
  · exact List.Pairwise.sublist (List.take_sublist 4 _)
      (slotSweep_chrono d L (WORKING_HOURS_start * 60) hwfL)

lemma updateStudentStats_completedMinutes (ps : PaymentId → Bool) (comp : Class → Bool)
    (acc : StudentStats) (c : Class) :
    (updateStudentStats ps comp acc c).completedMinutes =
      acc.completedMinutes +
        (if reportKeep comp c then getMinutesBetween c.start c.«end» else 0) := by
  unfold updateStudentStats reportKeep
  by_cases hc : c.cancelled
  · simp [hc]
  · by_cases hp : c.pendingConfirmation
    · simp [hc, hp]
    · by_cases hcmp : comp c
      · by_cases hpay : ps (getClassPaymentId c) <;> simp [hc, hp, hcmp, hpay]
      · simp [hc, hp, hcmp]

lemma updateStudentStats_paidMinutes (ps : PaymentId → Bool) (comp : Class → Bool)
    (acc : StudentStats) (c : Class) :
    (updateStudentStats ps comp acc c).paidMinutes =
      acc.paidMinutes +
        (if reportKeep comp c && ps (getClassPaymentId c) then
          getMinutesBetween c.start c.«end» else 0) := by
  unfold updateStudentStats reportKeep
  by_cases hc : c.cancelled
  · simp [hc]
  · by_cases hp : c.pendingConfirmation
    · simp [hc, hp]
    · by_cases hcmp : comp c
      · by_cases hpay : ps (getClassPaymentId c) <;> simp [hc, hp, hcmp, hpay]
      · simp [hc, hp, hcmp]

lemma foldl_update_completedMinutes (ps : PaymentId → Bool) (comp : Class → Bool) :
    ∀ (l : List Class) (acc : StudentStats),
      (l.foldl (updateStudentStats ps comp) acc).completedMinutes =
        acc.completedMinutes +
          ((l.filter (reportKeep comp)).map (fun c => getMinutesBetween c.start c.«end»)).sum := by
  intro l
  induction l with
  | nil => intro acc; simp
  | cons c rest ih =>
    intro acc
    rw [List.foldl_cons, ih, updateStudentStats_completedMinutes]
    by_cases h : reportKeep comp c <;> simp [List.filter_cons, h] <;> ring

lemma foldl_update_paidMinutes (ps : PaymentId → Bool) (comp : Class → Bool) :
    ∀ (l : List Class) (acc : StudentStats),
      (l.foldl (updateStudentStats ps comp) acc).paidMinutes =
        acc.paidMinutes +
          ((l.filter (fun c => reportKeep comp c && ps (getClassPaymentId c))).map
            (fun c => getMinutesBetween c.start c.«end»)).sum := by
  intro l
  induction l with
  | nil => intro acc; simp
  | cons c rest ih =>
    intro acc
    rw [List.foldl_cons, ih, updateStudentStats_paidMinutes]
    by_cases h : (reportKeep comp c && ps (getClassPaymentId c)) = true <;>
      simp [List.filter_cons, h] <;> ring

lemma periodCompletedMinutes_eq (comp : Class → Bool) (l : List Class) :
    periodCompletedMinutes comp l =
      ((l.filter (reportKeep comp)).map (fun c => getMinutesBetween c.start c.«end»)).sum := by
  unfold periodCompletedMinutes
  suffices h : ∀ (l : List Class) (a : Int),
      l.foldl (fun m c => if reportKeep comp c then m + getMinutesBetween c.start c.«end» else m) a =
        a + ((l.filter (reportKeep comp)).map (fun c => getMinutesBetween c.start c.«end»)).sum by
    rw [h]; ring
  intro l'
  induction l' with
  | nil => intro a; simp
  | cons c rest ih =>
    intro a
    rw [List.foldl_cons]
    by_cases h : reportKeep comp c <;> simp [List.filter_cons, h, ih] <;> ring

lemma sum_map_if_filter (p : Class → Bool) (m : Class → Int) (l : List Class) :
    (l.map (fun c => if p c then m c else 0)).sum = ((l.filter p).map m).sum := by
  induction l with
  | nil => simp
  | cons c rest ih =>
    by_cases h : p c <;> simp [List.filter_cons, h, ih]

lemma sum_map_ite_mem (D : List String) (hD : D.Nodup) (k : String) (hk : k ∈ D)
    (x : Int) (g : String → Int) :
    (D.map (fun s => if k = s then x + g s else g s)).sum = x + (D.map g).sum := by
  induction D with
  | nil => simp at hk
  | cons b rest ih =>
    rcases List.mem_cons.1 hk with rfl | hk'
    · have hnot : k ∉ rest := (List.nodup_cons.1 hD).1
      have : rest.map (fun s => if k = s then x + g s else g s) = rest.map g :=
        List.map_congr_left (fun s hs => by
          have : k ≠ s := fun h => hnot (h ▸ hs)
          simp [this])
      simp [this]
      ring
    · have hkb : k ≠ b := fun h => (List.nodup_cons.1 hD).1 (h ▸ hk')
      simp only [List.map_cons, List.sum_cons, if_neg hkb,
        ih (List.nodup_cons.1 hD).2 hk']
      ring

lemma sum_dedup_fiber (key : Class → String) (f : Class → Int) :
    ∀ l : List Class,
      (((l.map key).dedup).map
        (fun s => ((l.filter (fun c => key c = s)).map f).sum)).sum = (l.map f).sum := by
  intro l
  induction l with
  | nil => simp
  | cons a t ih =>
    have hmapcons : (a :: t).map key = key a :: t.map key := rfl
    by_cases hk : key a ∈ t.map key
    · rw [hmapcons, List.dedup_cons_of_mem hk]
      have hpt : ((t.map key).dedup).map
          (fun s => (((a :: t).filter (fun c => key c = s)).map f).sum) =
          ((t.map key).dedup).map
          (fun s => if key a = s then f a + ((t.filter (fun c => key c = s)).map f).sum
            else ((t.filter (fun c => key c = s)).map f).sum) := by
        refine List.map_congr_left (fun s _ => ?_)
        by_cases h : key a = s <;> simp [List.filter_cons, h]
      rw [hpt, sum_map_ite_mem _ (List.nodup_dedup _) _ (List.mem_dedup.2 hk), ih]
      simp
    · rw [hmapcons, List.dedup_cons_of_not_mem hk]
      have hfa : ((a :: t).filter (fun c => key c = key a)).map f =
          f a :: (t.filter (fun c => key c = key a)).map f := by
        simp [List.filter_cons]
      have hempty : t.filter (fun c => key c = key a) = [] := by
        rw [List.filter_eq_nil_iff]
        intro c hc
        simp only [decide_eq_true_eq]
        intro h
        exact hk (h ▸ List.mem_map_of_mem key hc)
      have hpt : (((t.map key).dedup).map
          (fun s => (((a :: t).filter (fun c => key c = s)).map f).sum)) =
          ((t.map key).dedup).map
          (fun s => ((t.filter (fun c => key c = s)).map f).sum) := by
        refine List.map_congr_left (fun s hs => ?_)
        have hksne : key a ≠ s := by
          intro h
          exact hk (h ▸ (List.mem_dedup.1 hs))
        simp [List.filter_cons, hksne]
      simp only [List.map_cons, List.sum_cons, hfa, hempty, hpt, ih]
      simp

lemma statsFor_completedMinutes (ps : PaymentId → Bool) (comp : Class → Bool)
    (cir : List Class) (student : String) :
    (statsFor ps comp cir student).completedMinutes =
      ((cir.filter (fun c => reportKeep comp c && c.student = student)).map
        (fun c => getMinutesBetween c.start c.«end»)).sum := by
  unfold statsFor
  rw [foldl_update_completedMinutes, List.filter_filter]
  simp [emptyStats]

lemma statsFor_paidMinutes (ps : PaymentId → Bool) (comp : Class → Bool)
    (cir : List Class) (student : String) :
    (statsFor ps comp cir student).paidMinutes =
      ((cir.filter (fun c =>
          (reportKeep comp c && ps (getClassPaymentId c)) && c.student = student)).map
        (fun c => getMinutesBetween c.start c.«end»)).sum := by
  unfold statsFor
  rw [foldl_update_paidMinutes, List.filter_filter]
  simp [emptyStats]

lemma sum_per_student_eq (ps : PaymentId → Bool) (comp : Class → Bool) (cir : List Class) :
    sumPerStudentCompletedMinutes ps comp cir = periodCompletedMinutes comp cir := by
  unfold sumPerStudentCompletedMinutes reportStudents
  have hperm : (List.insertionSort (fun a b : String => a ≤ b)
      (cir.map Class.student).dedup).Perm (cir.map Class.student).dedup :=
    List.perm_insertionSort _ _
  rw [(hperm.map _).sum_eq]
  have hfib := sum_dedup_fiber Class.student
    (fun c => if reportKeep comp c then getMinutesBetween c.start c.«end» else 0) cir
  have hpt : ((cir.map Class.student).dedup).map
      (fun s => (statsFor ps comp cir s).completedMinutes) =
      ((cir.map Class.student).dedup).map
      (fun s => ((cir.filter (fun c => Class.student c = s)).map
        (fun c => if reportKeep comp c then getMinutesBetween c.start c.«end» else 0)).sum) := by
    refine List.map_congr_left (fun s _ => ?_)
    rw [statsFor_completedMinutes, sum_map_if_filter, List.filter_filter]
  rw [hpt, hfib, sum_map_if_filter, periodCompletedMinutes_eq]

lemma restoreCheck_false_iff (t : Class) (ei j : Nat) (c : Class) :
    ((if j = ei then false else if c.cancelled then false
      else decide (c.day = t.day) && timesOverlap t c) = false) ↔
    (j ≠ ei → c.cancelled = false →
      ¬(c.day = t.day ∧ t.start < c.«end» ∧ c.start < t.«end»)) := by
  unfold timesOverlap
  by_cases he : j = ei
  · simp [he]
  · by_cases hc : c.cancelled <;> simp [he, hc, and_assoc]

lemma restoreWouldClashFrom_false_iff (t : Class) (ei : Nat) :
    ∀ (cs : List Class) (j : Nat),
      restoreWouldClashFrom t ei j cs = false ↔
        ∀ i, (h : i < cs.length) → j + i ≠ ei → cs[i].cancelled = false →
          ¬(cs[i].day = t.day ∧ t.start < cs[i].«end» ∧ cs[i].start < t.«end») := by
  intro cs
  induction cs with
  | nil => intro j; simp [restoreWouldClashFrom]
  | cons c rest ih =>
    intro j
    simp only [restoreWouldClashFrom, Bool.or_eq_false_iff]
    rw [restoreCheck_false_iff, ih (j + 1)]
    constructor
    · rintro ⟨h0, hrest⟩ i h hne hcanc
      cases i with
      | zero => exact h0 (by omega) hcanc
      | succ i =>
        have := hrest i (by simpa using h) (by omega)
        simpa using this (by simpa using hcanc)
    · intro hall
      refine ⟨fun hne hcanc => ?_, ?_⟩
      · have := hall 0 (by simp) (by omega) (by simpa using hcanc)
        simpa using this
      intro i h hne hcanc
      have := hall (i + 1) (by simpa using h) (by omega) (by simpa using hcanc)
      simpa using this


/-- C1: `hasClash` reports a conflict for a candidate against a store iff
some stored session, other than the excluded index and not cancelled, falls
on the same calendar date as the candidate (day name being compared when the
candidate lacks a date) and the two time ranges overlap in the half-open
sense `a.start < b.end` and `b.start < a.end`; and a store of sessions that
merely abut the candidate back-to-back (ending at its start or starting at
its end) never triggers a clash. -/
theorem C1_clash_characterization :
    (∀ (cand : Class) (excl : Option Nat) (cs : List Class),
        hasClash cand excl cs = true ↔
          ∃ i c, cs[i]? = some c ∧ ¬excl = some i ∧ c.cancelled = false ∧
            sameDayCheck cand c ∧ cand.start < c.«end» ∧ c.start < cand.«end») ∧
    (∀ (cand : Class) (excl : Option Nat) (cs : List Class),
        (∀ c ∈ cs, c.«end» = cand.start ∨ c.start = cand.«end») →
        hasClash cand excl cs = false) := by
  refine ⟨hasClash_iff, ?_⟩
  intro cand excl cs hbb
  by_contra hne
  rw [Bool.not_eq_false] at hne
  obtain ⟨i, c, hget, _, _, _, h4, h5⟩ := (hasClash_iff cand excl cs).1 hne
  rcases hbb c (List.getElem?_mem hget) with h | h <;> omega

/-- Witness for C1: the candidate 09:00-10:00 against a session 10:00-11:00
on the same date is not a clash. -/
theorem C1_witness : hasClash candC1 none [bbC1] = false :=
  C1_clash_characterization.2 candC1 none [bbC1] (by decide)

/-- C2: the lifecycle classifier does NOT implement the claimed
date-based rule.  A session dated day 100 (2024-05-31, a Friday), strictly
before "today" at day 105 (Wednesday 2024-06-05, weekday index 3), neither
cancelled nor pending and with no `completedDate`, is classified NOT
completed, because `isClassCompleted` compares weekday indices
(Friday = 5 is not before Wednesday = 3) and never reads the stored date;
the claim requires it to be completed since its calendar date is strictly
before today. -/
theorem C2_completion_ignores_date :
    isClassCompleted 3 720 clsC2 = false ∧
    clsC2.date = some 100 ∧ (100 : Nat) < 105 ∧
    clsC2.cancelled = false ∧ clsC2.pendingConfirmation = false ∧
    clsC2.completedDate = none ∧
    reportKeep (isClassCompleted 3 720) clsC2 = false := by decide

/-- C3 counterexample: with two completed 50-minute sessions for Kabir at
rate 100/hr, one paid, the code reports unpaid 84 (round of aggregated
minutes minus round of paid minutes: 167 - 83), while accumulating
per-session rounded amounts as the claim states gives 83. -/
theorem C3_counterexample :
    rowUnpaidAmount ratesC3 500 psC3 compC3 [k1C3, k2C3] "Kabir" = 84 ∧
    (([k1C3, k2C3].filter (fun c =>
        (reportKeep compC3 c && !psC3 (getClassPaymentId c)) && c.student = "Kabir")).map
      (fun c => mathRound60 (getMinutesBetween c.start c.«end»)
        (rateOf ratesC3 500 "Kabir"))).sum = 83 ∧
    (84 : Int) ≠ 83 := by decide

/-- C3 amended: per-student billing first accumulates completed and paid
minutes (paid flags looked up in the ledger by the composite
student/date/start/end key) and only then rounds:
`amount = round(completedMinutes/60 · rate)` with rate-table fallback,
`paid = round(paidMinutes/60 · rate)`, `unpaid = amount - paid`; for the
single 90-minute unpaid session at the 500/hr default rate this yields
amount 750, paid 0, unpaid 750, and marking its ledger entry true flips the
split to paid 750, unpaid 0 with the total unchanged. -/
theorem C3_amended_minutes_then_round :
    (∀ (rates : List (String × Nat)) (dflt : Nat) (ps : PaymentId → Bool)
        (comp : Class → Bool) (cir : List Class) (student : String),
        rowAmount rates dflt ps comp cir student =
          mathRound60
            (((cir.filter (fun c => reportKeep comp c && c.student = student)).map
                (fun c => getMinutesBetween c.start c.«end»)).sum)
            (rateOf rates dflt student) ∧
        rowPaidAmount rates dflt ps comp cir student =
          mathRound60
            (((cir.filter (fun c =>
                (reportKeep comp c && ps (getClassPaymentId c)) && c.student = student)).map
                (fun c => getMinutesBetween c.start c.«end»)).sum)
            (rateOf rates dflt student) ∧
        rowUnpaidAmount rates dflt ps comp cir student =
          rowAmount rates dflt ps comp cir student -
            rowPaidAmount rates dflt ps comp cir student) ∧
    (rowAmount [] 500 psUnpaidC3 compC3 [kabir90] "Kabir" = 750 ∧
     rowPaidAmount [] 500 psUnpaidC3 compC3 [kabir90] "Kabir" = 0 ∧
     rowUnpaidAmount [] 500 psUnpaidC3 compC3 [kabir90] "Kabir" = 750 ∧
     rowAmount [] 500 psPaidC3 compC3 [kabir90] "Kabir" = 750 ∧
     rowPaidAmount [] 500 psPaidC3 compC3 [kabir90] "Kabir" = 750 ∧
     rowUnpaidAmount [] 500 psPaidC3 compC3 [kabir90] "Kabir" = 0) := by
  constructor
  · intro rates dflt ps comp cir student
    refine ⟨?_, ?_, rfl⟩
    · unfold rowAmount
      rw [statsFor_completedMinutes]
    · unfold rowPaidAmount
      rw [statsFor_paidMinutes]
  · exact ⟨by decide, by decide, by decide, by decide, by decide, by decide⟩

/-- C4 counterexample: a cancelled session spanning the working day leaves
no available slots, while the same query against the store restricted to
its non-cancelled sessions returns the 08:00-09:00 slot — cancelled
sessions DO reduce availability. -/
theorem C4_counterexample :
    findAvailableSlots "Monday" 60 none [cxC4] = [] ∧
    findAvailableSlots "Monday" 60 none (List.filter (fun c => !c.cancelled) [cxC4]) =
      [⟨480, 540⟩] ∧
    cxC4.cancelled = true := by decide

/-- C4 amended: the Availability Finder subtracts every session whose day
name matches (except the excluded editing index), cancelled or not: a
returned slot never overlaps any session on that day, including cancelled
ones. -/
theorem C4_amended_subtracts_all (day : String) (d : Nat) (excl : Option Nat)
    (cs : List Class) (hwf : ∀ c ∈ cs, c.start < c.«end» ∧ c.«end» ≤ 1440) :
    ∀ s ∈ findAvailableSlots day d excl cs,
      ∀ i c, cs[i]? = some c → excl ≠ some i → c.day = day →
        ¬(s.start < c.«end» ∧ c.start < s.«end») := by
  intro s hs i c hget hexcl hday
  exact ((findAvailableSlots_core day d excl cs hwf).1 s hs).2 i c hget hexcl hday

/-- Witness for the amended C4: the first slot returned next to a cancelled
Monday session does not overlap that cancelled session. -/
theorem C4_amended_witness :
    ¬((480 : Nat) < cW4.«end» ∧ cW4.start < (540 : Nat)) :=
  C4_amended_subtracts_all "Monday" 60 none [cW4] (by decide)
    ⟨480, 540⟩ (by decide) 0 cW4 (by decide) (by decide) (by decide)

/-- C5: for well-formed stored times, every slot returned by the
Availability Finder for duration `d` spans exactly `d` minutes from its
start, overlaps no non-cancelled (and non-excluded) session on that day,
and the result has at most 4 slots in strictly increasing chronological
order. -/
theorem C5_availability_correctness (day : String) (d : Nat) (excl : Option Nat)
    (cs : List Class) (hwf : ∀ c ∈ cs, c.start < c.«end» ∧ c.«end» ≤ 1440) :
    (∀ s ∈ findAvailableSlots day d excl cs,
        getMinutesBetween s.start s.«end» = (d : Int) ∧
        ∀ i c, cs[i]? = some c → excl ≠ some i → c.day = day → c.cancelled = false →
          ¬(s.start < c.«end» ∧ c.start < s.«end»)) ∧
    (findAvailableSlots day d excl cs).length ≤ 4 ∧
    List.Pairwise (fun a b : Slot => a.start < b.start) (findAvailableSlots day d excl cs) := by
  obtain ⟨h1, h2, h3⟩ := findAvailableSlots_core day d excl cs hwf
  refine ⟨?_, h2, h3⟩
  intro s hs
  obtain ⟨hend, hover⟩ := h1 s hs
  refine ⟨?_, ?_⟩
  · rw [hend]; unfold getMinutesBetween; push_cast; ring
  · intro i c hget hexcl hday _
    exact hover i c hget hexcl hday

/-- Witness for C5: at most 4 slots are suggested for a one-session
Monday. -/
theorem C5_witness : (findAvailableSlots "Monday" 60 none [ashaC5]).length ≤ 4 :=
  (C5_availability_correctness "Monday" 60 none [ashaC5] (by decide)).2.1

/-- C6: appending a cancelled session never changes the outcome of
`hasClash`; a store consisting solely of cancelled sessions never blocks
any candidate (in particular one identical in date and time to a cancelled
session); and excluding an index is the same as querying the store with
that record removed. -/
theorem C6_gate_skips_cancelled_and_excluded :
    (∀ (cand : Class) (excl : Option Nat) (cs : List Class) (c : Class),
        c.cancelled = true → hasClash cand excl (cs ++ [c]) = hasClash cand excl cs) ∧
    (∀ (cand : Class) (excl : Option Nat) (cs : List Class),
        (∀ c ∈ cs, c.cancelled = true) → hasClash cand excl cs = false) ∧
    (∀ (cand : Class) (i : Nat) (cs : List Class),
        hasClash cand (some i) cs = hasClash cand none (cs.eraseIdx i)) := by
  refine ⟨?_, ?_, ?_⟩
  · intro cand excl cs c hc
    unfold hasClash
    rw [hasClashFrom_append]
    have hone : hasClashFrom cand excl (0 + cs.length) [c] = false := by
      simp [hasClashFrom, clashCheck, hc]
    rw [hone, Bool.or_false]
  · intro cand excl cs hall
    by_contra hne
    rw [Bool.not_eq_false] at hne
    obtain ⟨i, c, hget, _, hcanc, _⟩ := (hasClash_iff cand excl cs).1 hne
    rw [hall c (List.getElem?_mem hget)] at hcanc
    exact absurd hcanc (by simp)
  · intro cand i cs
    unfold hasClash
    simpa using hasClashFrom_erase cand cs i 0

/-- Witness for C6: a candidate identical in date and time to an existing
cancelled session is not blocked. -/
theorem C6_witness : hasClash candC1 none [twinC6] = false :=
  C6_gate_skips_cancelled_and_excluded.2.1 candC1 none [twinC6] (by decide)

/-- C7: the per-student completed minutes, summed over the students listed
by the report, equal the period-level completed minutes; and for every
student the paid amount plus the unpaid amount equals the student's total
completed amount. -/
theorem C7_aggregation_conservation :
    (∀ (ps : PaymentId → Bool) (comp : Class → Bool) (cir : List Class),
        sumPerStudentCompletedMinutes ps comp cir = periodCompletedMinutes comp cir) ∧
    (∀ (rates : List (String × Nat)) (dflt : Nat) (ps : PaymentId → Bool)
        (comp : Class → Bool) (cir : List Class) (student : String),
        rowPaidAmount rates dflt ps comp cir student +
          rowUnpaidAmount rates dflt ps comp cir student =
            rowAmount rates dflt ps comp cir student) := by
  refine ⟨sum_per_student_eq, ?_⟩
  intro rates dflt ps comp cir student
  unfold rowUnpaidAmount
  ring

/-- C8 counterexample: restoring the cancelled Monday session dated day 3
is rejected (and the store left unchanged) although the only other stored
session is on a different date (day 10), so no non-cancelled session on the
same calendar date conflicts with it — the restore gate compares day names,
not dates. -/
theorem C8_counterexample :
    handleRestoreClass [c8cancelled, c8other] 0 = (false, [c8cancelled, c8other]) ∧
    c8cancelled.cancelled = true ∧
    c8other.cancelled = false ∧
    c8other.date ≠ c8cancelled.date := by decide

/-- C8 amended: a restore succeeds iff no other stored non-cancelled
session has the same day NAME and an overlapping time range; on success the
record's `cancelled`, `cancelReason`, `cancelledAt` and `customCancelReason`
fields are cleared in place, and on rejection the collection is left
entirely unchanged. -/
theorem C8_amended_day_name_gate (cs : List Class) (i : Nat) (cls : Class)
    (h : cs[i]? = some cls) :
    ((handleRestoreClass cs i).1 = true ↔
      ∀ j, (hj : j < cs.length) → j ≠ i → cs[j].cancelled = false →
        ¬(cs[j].day = cls.day ∧ cls.start < cs[j].«end» ∧ cs[j].start < cls.«end»)) ∧
    ((handleRestoreClass cs i).1 = true →
      (handleRestoreClass cs i).2 = cs.set i (restoreTestClass cls)) ∧
    ((handleRestoreClass cs i).1 = false → (handleRestoreClass cs i).2 = cs) ∧
    (restoreTestClass cls).cancelled = false ∧
    (restoreTestClass cls).cancelReason = none ∧
    (restoreTestClass cls).cancelledAt = none ∧
    (restoreTestClass cls).customCancelReason = none := by
  have hiff := restoreWouldClashFrom_false_iff (restoreTestClass cls) i cs 0
  have hday : (restoreTestClass cls).day = cls.day := rfl
  have hstart : (restoreTestClass cls).start = cls.start := rfl
  have hend : (restoreTestClass cls).«end» = cls.«end» := rfl
  rw [hday, hstart, hend] at hiff
  simp only [Nat.zero_add] at hiff
  cases hw : restoreWouldClashFrom (restoreTestClass cls) i 0 cs with
  | false =>
    have hr := hiff.1 hw
    simp only [handleRestoreClass, h, hw, if_neg Bool.false_ne_true]
    refine ⟨⟨fun _ j hj hne hcanc => hr j hj (by omega) hcanc, fun _ => by trivial⟩,
      fun _ => by trivial, ?_, ?_, ?_, ?_, ?_⟩ <;> simp [restoreTestClass]
  | true =>
    have hnr : ¬(∀ j, (hj : j < cs.length) → j ≠ i → cs[j].cancelled = false →
        ¬(cs[j].day = cls.day ∧ cls.start < cs[j].«end» ∧ cs[j].start < cls.«end»)) := by
      intro hr
      have : restoreWouldClashFrom (restoreTestClass cls) i 0 cs = false :=
        hiff.2 (fun j hj hne hcanc => hr j hj (by omega) hcanc)
      rw [this] at hw
      exact absurd hw (by simp)
    simp only [handleRestoreClass, h, hw, if_pos rfl]
    refine ⟨⟨fun hf => absurd hf (by simp), fun hr => absurd hr hnr⟩,
      ?_, ?_, ?_, ?_, ?_, ?_⟩ <;> simp [restoreTestClass]

/-- Witness for the amended C8: restoring the lone cancelled session of a
one-element store succeeds. -/
theorem C8_amended_witness : (handleRestoreClass [c8cancelled] 0).1 = true :=
  (C8_amended_day_name_gate [c8cancelled] 0 c8cancelled (by decide)).1.mpr (by decide)

/-- C9: both write paths reject a submission with an empty student name or
with `end <= start` synchronously, leaving the stored collection unchanged;
and any accepted submission satisfies `start < end`. -/
theorem C9_write_validation :
    (∀ (sn day : String) (date st en : Nat) (ei : Option Nat) (ov : Bool) (cs : List Class),
        sn = "" ∨ en ≤ st →
        handleFormSubmit sn day date st en ei ov cs = (false, cs)) ∧
    (∀ (sn day : String) (date st en : Nat) (ei : Option Nat) (ov : Bool) (cs : List Class),
        (handleFormSubmit sn day date st en ei ov cs).1 = true → st < en) ∧
    (∀ (sn day : String) (st en : Nat) (psince : String) (ei : Option Nat) (ov : Bool)
        (cs : List Class),
        sn = "" ∨ en ≤ st →
        handleCheckWithStudent sn day st en psince ei ov cs = (false, cs)) ∧
    (∀ (sn day : String) (st en : Nat) (psince : String) (ei : Option Nat) (ov : Bool)
        (cs : List Class),
        (handleCheckWithStudent sn day st en psince ei ov cs).1 = true → st < en) := by
  refine ⟨?_, ?_, ?_, ?_⟩
  · rintro sn day date st en ei ov cs (h | h)
    · simp [handleFormSubmit, h]
    · by_cases hsn : sn = ""
      · simp [handleFormSubmit, hsn]
      · simp [handleFormSubmit, hsn, h]
  · intro sn day date st en ei ov cs htrue
    by_cases hsn : sn = ""
    · simp [handleFormSubmit, hsn] at htrue
    · by_cases hen : en ≤ st
      · simp [handleFormSubmit, hsn, hen] at htrue
      · omega
  · rintro sn day st en psince ei ov cs (h | h)
    · simp [handleCheckWithStudent, h]
    · by_cases hsn : sn = ""
      · simp [handleCheckWithStudent, hsn]
      · by_cases hday : day = ""
        · simp [handleCheckWithStudent, hsn, hday]
        · simp [handleCheckWithStudent, hsn, hday, h]
  · intro sn day st en psince ei ov cs htrue
    by_cases hsn : sn = ""
    · simp [handleCheckWithStudent, hsn] at htrue
    · by_cases hday : day = ""
      · simp [handleCheckWithStudent, hsn, hday] at htrue
      · by_cases hen : en ≤ st
        · simp [handleCheckWithStudent, hsn, hday, hen] at htrue
        · omega

/-- Witness for C9: a submission ending (09:00) before it starts (10:00) is
rejected with the store unchanged. -/
theorem C9_witness : handleFormSubmit "Asha" "Monday" 3 600 540 none false [] = (false, []) :=
  C9_write_validation.1 "Asha" "Monday" 3 600 540 none false [] (Or.inr (by decide))

/-- C10: an accepted check-with-student submission (non-editing path)
appends exactly the pending class literal, which carries no `date`;
dateless sessions are excluded from every date-ranged report; a dateless
stored session can only be matched by the clash gate through equal day
names (which forces the candidate to be dateless too); and the load-time
migration assigns a dateless class the date `weekStart + DAYS.indexOf day`
in the then-current week. -/
theorem C10_pending_path_dateless :
    (∀ (sn day : String) (st en : Nat) (psince : String) (ov : Bool) (cs : List Class),
        (handleCheckWithStudent sn day st en psince none ov cs).1 = true →
        handleCheckWithStudent sn day st en psince none ov cs =
          (true, cs ++ [checkWithStudentNewClass sn day st en psince ov]) ∧
        (checkWithStudentNewClass sn day st en psince ov).date = none ∧
        (checkWithStudentNewClass sn day st en psince ov).pendingConfirmation = true) ∧
    (∀ (s e : Nat) (cs : List Class), ∀ c ∈ getClassesInRange s e cs, c.date ≠ none) ∧
    (∀ (cand : Class) (excl : Option Nat) (i : Nat) (c : Class),
        c.date = none → clashCheck cand excl i c = true →
        cand.date = none ∧ cand.day = c.day ∧ timesOverlap cand c = true) ∧
    (∀ (ws : Nat) (c : Class), c.date = none → ∀ k, DAYS.indexOf? c.day = some k →
        migrateClass ws c = {c with date := some (ws + k)}) := by
  refine ⟨?_, ?_, ?_, ?_⟩
  · intro sn day st en psince ov cs htrue
    by_cases hsn : sn = ""
    · simp [handleCheckWithStudent, hsn] at htrue
    · by_cases hday : day = ""
      · simp [handleCheckWithStudent, hsn, hday] at htrue
      · by_cases hen : en ≤ st
        · simp [handleCheckWithStudent, hsn, hday, hen] at htrue
        · by_cases hcl : (hasClash (pendingClass sn day st en psince) none cs && !ov) = true
          · simp [handleCheckWithStudent, hsn, hday, hen, hcl] at htrue
          · refine ⟨?_, ?_, ?_⟩
            · simp [handleCheckWithStudent, hsn, hday, hen, hcl, checkWithStudentNewClass]
            · unfold checkWithStudentNewClass pendingClass
              split <;> rfl
            · unfold checkWithStudentNewClass pendingClass
              split <;> rfl
  · intro s e cs c hc
    unfold getClassesInRange at hc
    rw [List.mem_filter] at hc
    obtain ⟨_, hpred⟩ := hc
    cases hd : c.date with
    | none => rw [hd] at hpred; simp at hpred
    | some d => simp [hd]
  · intro cand excl i c hdate hcc
    unfold clashCheck at hcc
    by_cases he : excl = some i
    · rw [if_pos he] at hcc; exact absurd hcc (by simp)
    · rw [if_neg he] at hcc
      by_cases hcanc : c.cancelled
      · rw [if_pos hcanc] at hcc; exact absurd hcc (by simp)
      · rw [if_neg hcanc] at hcc
        cases hcd : cand.date with
        | none =>
          rw [hcd] at hcc
          simp only [Bool.and_eq_true, decide_eq_true_eq] at hcc
          exact ⟨rfl, hcc.1.symm, hcc.2⟩
        | some d =>
          rw [hcd, hdate] at hcc
          simp at hcc
  · intro ws c hdate k hidx
    unfold migrateClass
    rw [hdate, hidx]

/-- Witness for C10: the concrete accepted check-with-student submission
appends the dateless pending class. -/
theorem C10_witness :
    handleCheckWithStudent "Riya" "Tuesday" 540 600 "t0" none false [] =
      (true, [] ++ [checkWithStudentNewClass "Riya" "Tuesday" 540 600 "t0" false]) ∧
    (checkWithStudentNewClass "Riya" "Tuesday" 540 600 "t0" false).date = none ∧
    (checkWithStudentNewClass "Riya" "Tuesday" 540 600 "t0" false).pendingConfirmation = true :=
  C10_pending_path_dateless.1 "Riya" "Tuesday" 540 600 "t0" false [] (by decide)

end TutorPlanner
